import Mathlib

/-!
Verification of the `script.py` restructuring utility.

The script walks a directory tree (`os.walk`) and, for every file whose name
ends in `.rs`, creates a sibling directory named after the file's stem, moves
the file to `<stem>/mod.rs`, prepends a fixed header block unless the file
already starts with it, and ensures an empty `<stem>/test.rs` exists.

Shallow embedding conventions:
* A path is the list of components below the hard-coded root
  (`./src/tokens/transforms` in the script); the root itself is `[]`.
  `folder_path.resolve()` only makes the path absolute in the script (there
  are no symlinks or `..` components in play), so it is the identity here.
* A file's content is its `readlines()` result: the list of lines, each
  carrying its trailing newline (the script opens files with
  `encoding="utf-8", newline="\n"`).  A file whose bytes do not decode as
  UTF-8 is `FileData.binary`; reading it raises, exactly as `open(...)` /
  `readlines()` would.
* `os.walk` is a top-down generator: it lists a directory (snapshot of its
  subdirectory and file names) when it reaches it, the loop body then runs
  for that directory's files, and only afterwards does the walk descend into
  the snapshotted subdirectories, listing each one at the moment it is
  reached.  This is modelled by a fuel-indexed worklist recursion.
* Uncaught Python exceptions (`FileExistsError` from `mkdir` on a non-
  directory, `FileNotFoundError` from `shutil.move`, `UnicodeDecodeError`
  from reading) abort the run; the partial filesystem state is carried in
  the error result.
-/

namespace Script

/-- A filesystem path, as the list of components below the walk root. -/
abbrev Path := List String

/-- Content of a regular file: decodable text (its list of lines), or bytes
that are not valid UTF-8. -/
inductive FileData where
  | text (lines : List String)
  | binary
  deriving DecidableEq, Repr

/-- A filesystem: an association list of regular files and a list of
directories.  Entries are looked up by the first match. -/
structure FS where
  files : List (Path × FileData)
  dirs : List Path
  deriving DecidableEq, Repr

/-- First-match lookup in the file association list. -/
def findFile : List (Path × FileData) → Path → Option FileData
  | [], _ => none
  | e :: t, p => if e.1 = p then some e.2 else findFile t p

/-- Content of the regular file at `p`, if any. -/
def FS.lookupFile (fs : FS) (p : Path) : Option FileData :=
  findFile fs.files p

/-- Does a regular file exist at `p`? -/
def FS.fileExists (fs : FS) (p : Path) : Bool :=
  (fs.lookupFile p).isSome

/-- Does a directory exist at `p`? -/
def FS.dirExists (fs : FS) (p : Path) : Bool :=
  decide (p ∈ fs.dirs)

/-- Does any filesystem object exist at `p`?  (`Path.exists()`.) -/
def FS.pathExists (fs : FS) (p : Path) : Bool :=
  fs.fileExists p || fs.dirExists p

/-- Drop every entry for path `p` from a file association list. -/
def removeKey : List (Path × FileData) → Path → List (Path × FileData)
  | [], _ => []
  | e :: t, p => if e.1 = p then removeKey t p else e :: removeKey t p

/-- Remove the regular file at `p` (all entries for that path). -/
def FS.removeFile (fs : FS) (p : Path) : FS :=
  { fs with files := removeKey fs.files p }

/-- Create or overwrite the regular file at `p` with content `v`. -/
def FS.setFile (fs : FS) (p : Path) (v : FileData) : FS :=
  { fs with files := (fs.removeFile p).files ++ [(p, v)] }

/-- Add a directory to the directory list unless already present. -/
def insertDir (ds : List Path) (q : Path) : List Path :=
  if q ∈ ds then ds else ds ++ [q]

/-- Would `p.mkdir(parents=True, exist_ok=True)` succeed?  It raises when
some prefix of `p` (including `p` itself) exists but is not a directory. -/
def FS.mkdirOk (fs : FS) (p : Path) : Bool :=
  p.inits.all (fun q => !fs.fileExists q || fs.dirExists q)

/-- Effect of `p.mkdir(parents=True, exist_ok=True)`: every prefix of `p`
becomes a directory. -/
def FS.mkdirParents (fs : FS) (p : Path) : FS :=
  { fs with dirs := p.inits.foldl insertDir fs.dirs }

/-- Model of `p.touch(exist_ok=True)`: create an empty file unless something already
exists at `p`; an existing file is left untouched. -/
def FS.touch (fs : FS) (p : Path) : FS :=
  if fs.pathExists p then fs else fs.setFile p (.text [])

/-- The hard-coded `HEADER_LINES` of the script. -/
def HEADER_LINES : List String :=
  ["#[cfg(feature=\"test_access\")]\n",
   "pub mod test;\n",
   "\n"]

/-- The test `filename.endswith(".rs")`, spelled out on the character list so that it
evaluates by kernel reduction (for an ASCII suffix this is byte-for-byte the
same test). -/
def endsWithRs (s : String) : Bool :=
  s.data.reverse.take 3 = ['s', 'r', '.']

/-- Python `Path.stem` for a filename that ends in `.rs`: the name with the final
`.rs` suffix removed — except that pathlib treats a leading dot as part of a
hidden file's name, so the stem of the bare name `".rs"` is `".rs"` itself. -/
def stem (s : String) : String :=
  if s = ".rs" then s else ⟨(s.data.reverse.drop 3).reverse⟩

/-- A console message of the script: the `[SKIP]` notice (naming the
already-existing module file) or the final `print(folder_path)` line. -/
inductive Output where
  | skip (modPath : Path)
  | done (folderPath : Path)
  deriving DecidableEq, Repr

/-- An uncaught exception aborting the run. -/
inductive RunError where
  | mkdirClash (p : Path)
  | missingSource (p : Path)
  | badUtf8 (p : Path)
  deriving DecidableEq, Repr

/-- Body of the inner `for filename in filenames:` loop of `main`, for one
`filename` found in directory `d`.  Returns the new state and this file's
console output, or the partial state together with the uncaught exception. -/
def processOne (fs : FS) (d : Path) (filename : String) :
    Except (FS × List Output × RunError) (FS × List Output) :=
  -- `if not filename.endswith(".rs"): continue`
  if endsWithRs filename then
    let sourcePath := d ++ [filename]
    let tokenName := stem filename
    let folderPath := d ++ [tokenName]
    let modPath := folderPath ++ ["mod.rs"]
    let testPath := folderPath ++ ["test.rs"]
    -- `folder_path.mkdir(parents=True, exist_ok=True)`
    if fs.mkdirOk folderPath then
      let fs1 := fs.mkdirParents folderPath
      -- `if mod_path.exists(): print(f"[SKIP] ..."); continue`
      if fs1.pathExists modPath then .ok (fs1, [.skip modPath])
      else
        -- `shutil.move(str(source_path), str(mod_path))`
        match fs1.lookupFile sourcePath with
        | none => .error (fs1, [], .missingSource sourcePath)
        | some data =>
          let fs2 := (fs1.removeFile sourcePath).setFile modPath data
          -- `with mod_path.open("r+", encoding="utf-8", newline="\n") as f:`
          match fs2.lookupFile modPath with
          | none => .error (fs2, [], .missingSource modPath)
          | some .binary => .error (fs2, [], .badUtf8 modPath)
          | some (.text fileLines) =>
            -- `if file_lines[:len(HEADER_LINES)] != HEADER_LINES:`
            let fs3 :=
              if fileLines.take HEADER_LINES.length = HEADER_LINES then fs2
              else fs2.setFile modPath (.text (HEADER_LINES ++ fileLines))
            -- `test_path.touch(exist_ok=True)`
            let fs4 := fs3.touch testPath
            .ok (fs4, [.done folderPath])
    else .error (fs, [], .mkdirClash folderPath)
  else .ok (fs, [])

/-- The inner loop of `main` over the snapshotted `filenames` of one
directory, aborting on the first uncaught exception. -/
def processFiles (fs : FS) (d : Path) :
    List String → Except (FS × List Output × RunError) (FS × List Output)
  | [] => .ok (fs, [])
  | n :: ns =>
    match processOne fs d n with
    | .error e => .error e
    | .ok (fs1, out1) =>
      match processFiles fs1 d ns with
      | .error (fs2, out2, e) => .error (fs2, out1 ++ out2, e)
      | .ok (fs2, out2) => .ok (fs2, out1 ++ out2)

/-- The name `x` such that `p = d ++ [x]`, if there is one. -/
def childName (d : Path) (p : Path) : Option String :=
  match p.reverse with
  | [] => none
  | x :: r => if r.reverse = d then some x else none

/-- Names of the subdirectories of `d` (the `dirnames` of `os.walk`). -/
def FS.childDirNames (fs : FS) (d : Path) : List String :=
  fs.dirs.filterMap (childName d)

/-- Names of the regular files directly in `d` (the `filenames`). -/
def FS.childFileNames (fs : FS) (d : Path) : List String :=
  fs.files.filterMap (fun e => childName d e.1)

/-- How a run ended. -/
inductive Status where
  | ok
  | err (e : RunError)
  | fuelOut
  deriving DecidableEq, Repr

/-- Result of (a suffix of) a run: final filesystem, the directories the
walk reached (in order), the console output, and how the run ended. -/
structure RunResult where
  fs : FS
  visited : List Path
  outputs : List Output
  status : Status
  deriving DecidableEq, Repr

/-- The walk loop of `main`, as a worklist: pop a directory, snapshot its
subdirectory and file names, run the file loop, then descend into the
snapshotted subdirectories (depth-first, exactly the order of the `os.walk`
generator interleaved with the loop body).  `fuel` bounds the number of
directories popped. -/
def walkAux : Nat → FS → List Path → RunResult
  | _, fs, [] => ⟨fs, [], [], .ok⟩
  | 0, fs, _ :: _ => ⟨fs, [], [], .fuelOut⟩
  | fuel + 1, fs, d :: rest =>
    let subNames := fs.childDirNames d
    let fileNames := fs.childFileNames d
    match processFiles fs d fileNames with
    | .error (fs1, out1, e) => ⟨fs1, [d], out1, .err e⟩
    | .ok (fs1, out1) =>
      let r := walkAux fuel fs1 (subNames.map (fun x => d ++ [x]) ++ rest)
      ⟨r.fs, d :: r.visited, out1 ++ r.outputs, r.status⟩

/-- Model of `main()`: walk the whole tree starting at the root. -/
def main (fuel : Nat) (fs : FS) : RunResult :=
  walkAux fuel fs [[]]

/-! ### Concrete filesystems used as test inputs -/

/-- A root containing a single candidate `foo.rs`. -/
def fsFoo : FS := ⟨[(["foo.rs"], .text ["fn x()\n"])], [[]]⟩

/-- A root with a candidate `bar.rs` and a pre-existing empty directory
`bar/`. -/
def fsBar : FS := ⟨[(["bar.rs"], .text ["x\n"])], [[], ["bar"]]⟩

/-- A root with a candidate `bar.rs`, a pre-existing directory `bar/`, and a
pre-existing non-empty test file `bar/test.rs`. -/
def fsBarT : FS :=
  ⟨[(["bar.rs"], .text ["x\n"]), (["bar", "test.rs"], .text ["keep\n"])],
   [[], ["bar"]]⟩

/-- A root containing a single candidate `bad.rs` whose bytes are not valid
UTF-8. -/
def fsBad : FS := ⟨[(["bad.rs"], .binary)], [[]]⟩

/-- A root containing a candidate `h.rs` whose content is exactly the header
block. -/
def fsHdr : FS := ⟨[(["h.rs"], .text HEADER_LINES)], [[]]⟩

/-- A root containing a candidate `d.rs` whose content is two copies of the
header block. -/
def fsDup : FS := ⟨[(["d.rs"], .text (HEADER_LINES ++ HEADER_LINES))], [[]]⟩

/-- A root containing a single candidate named `mod.rs`. -/
def fsMod : FS := ⟨[(["mod.rs"], .text ["y\n"])], [[]]⟩

/-- Scenario D of the specification: a fresh candidate `bar.rs` next to a
pre-existing module file `bar/mod.rs`. -/
def fsPre : FS :=
  ⟨[(["bar.rs"], .text ["x\n"]), (["bar", "mod.rs"], .text ["m\n"])],
   [[], ["bar"]]⟩

/-- Combined effect of the move, rewrite and touch steps (lines 37–50 of the
script) on a candidate `d/name` with decoded lines `lines` that passed the
skip guard; used to state the per-file lemmas. -/
def migrateFS (fs : FS) (d : Path) (name : String) (lines : List String) : FS :=
  let folderPath := d ++ [stem name]
  let modPath := folderPath ++ ["mod.rs"]
  let testPath := folderPath ++ ["test.rs"]
  let fs2 := ((fs.mkdirParents folderPath).removeFile (d ++ [name])).setFile
    modPath (.text lines)
  let fs3 :=
    if lines.take HEADER_LINES.length = HEADER_LINES then fs2
    else fs2.setFile modPath (.text (HEADER_LINES ++ lines))
  fs3.touch testPath

/-- Wellformedness of a filesystem's directory structure: directory paths
are distinct, the root directory is present, and the parent of every
non-root directory is again a directory. -/
def FS.wellFormed (fs : FS) : Prop :=
  fs.dirs.Nodup ∧ [] ∈ fs.dirs ∧ ∀ p ∈ fs.dirs, p = [] ∨ p.dropLast ∈ fs.dirs

instance (fs : FS) : Decidable fs.wellFormed := by
  unfold FS.wellFormed
  infer_instance

/-! ### Theorems -/

/-! #### Basic lemmas about the filesystem operations -/

theorem findFile_append (l1 l2 : List (Path × FileData)) (p : Path) :
    findFile (l1 ++ l2) p =
      match findFile l1 p with
      | some v => some v
      | none => findFile l2 p := by
  induction l1 with
  | nil => rfl
  | cons e t ih => by_cases h : e.1 = p <;> simp [findFile, h, ih]

theorem findFile_removeKey_self (l : List (Path × FileData)) (p : Path) :
    findFile (removeKey l p) p = none := by
  induction l with
  | nil => rfl
  | cons e t ih => by_cases h : e.1 = p <;> simp [removeKey, h, findFile, ih]

theorem findFile_removeKey_ne (l : List (Path × FileData)) (p q : Path) (h : q ≠ p) :
    findFile (removeKey l p) q = findFile l q := by
  induction l with
  | nil => rfl
  | cons e t ih =>
    by_cases h1 : e.1 = p
    · have h2 : e.1 ≠ q := fun hq => h (hq ▸ h1)
      simp [removeKey, h1, findFile, h2, ih, h, Ne.symm h]
    · by_cases h2 : e.1 = q <;> simp [removeKey, h1, findFile, h2, ih, h, Ne.symm h]

theorem FS.lookupFile_removeFile_self (fs : FS) (p : Path) :
    (fs.removeFile p).lookupFile p = none :=
  findFile_removeKey_self fs.files p

theorem FS.lookupFile_removeFile_ne (fs : FS) (p q : Path) (h : q ≠ p) :
    (fs.removeFile p).lookupFile q = fs.lookupFile q :=
  findFile_removeKey_ne fs.files p q h

theorem FS.lookupFile_setFile_self (fs : FS) (p : Path) (v : FileData) :
    (fs.setFile p v).lookupFile p = some v := by
  show findFile ((fs.removeFile p).files ++ [(p, v)]) p = some v
  rw [findFile_append]
  rw [show findFile (fs.removeFile p).files p = none from fs.lookupFile_removeFile_self p]
  simp [findFile]

theorem FS.lookupFile_setFile_ne (fs : FS) (p q : Path) (v : FileData) (h : q ≠ p) :
    (fs.setFile p v).lookupFile q = fs.lookupFile q := by
  show findFile ((fs.removeFile p).files ++ [(p, v)]) q = _
  rw [findFile_append]
  rw [show findFile (fs.removeFile p).files q = fs.lookupFile q from
    fs.lookupFile_removeFile_ne p q h]
  cases hf : fs.lookupFile q with
  | some v0 => rfl
  | none => simp [findFile, Ne.symm h]

theorem FS.dirs_removeFile (fs : FS) (p : Path) : (fs.removeFile p).dirs = fs.dirs := rfl

theorem FS.dirs_setFile (fs : FS) (p : Path) (v : FileData) :
    (fs.setFile p v).dirs = fs.dirs := rfl

theorem FS.dirs_touch (fs : FS) (p : Path) : (fs.touch p).dirs = fs.dirs := by
  unfold FS.touch; split <;> rfl

theorem FS.files_mkdirParents (fs : FS) (p : Path) :
    (fs.mkdirParents p).files = fs.files := rfl

theorem FS.lookupFile_mkdirParents (fs : FS) (q p : Path) :
    (fs.mkdirParents q).lookupFile p = fs.lookupFile p := rfl

theorem FS.fileExists_mkdirParents (fs : FS) (q p : Path) :
    (fs.mkdirParents q).fileExists p = fs.fileExists p := rfl

theorem mem_insertDir (ds : List Path) (q r : Path) :
    q ∈ insertDir ds r ↔ q ∈ ds ∨ q = r := by
  unfold insertDir
  split
  · next h => exact ⟨Or.inl, fun hh => hh.elim id (fun e => e ▸ h)⟩
  · simp

theorem mem_foldl_insertDir (l : List Path) (ds : List Path) (q : Path) :
    q ∈ l.foldl insertDir ds ↔ q ∈ ds ∨ q ∈ l := by
  induction l generalizing ds with
  | nil => simp
  | cons a t ih => simp [List.foldl_cons, ih, mem_insertDir, List.mem_cons, or_assoc]

theorem FS.mem_dirs_mkdirParents (fs : FS) (p q : Path) :
    q ∈ (fs.mkdirParents p).dirs ↔ q ∈ fs.dirs ∨ q <+: p := by
  show q ∈ p.inits.foldl insertDir fs.dirs ↔ _
  rw [mem_foldl_insertDir, List.mem_inits]

theorem FS.self_mem_dirs_mkdirParents (fs : FS) (p : Path) :
    p ∈ (fs.mkdirParents p).dirs :=
  (fs.mem_dirs_mkdirParents p p).2 (Or.inr (List.prefix_refl p))

theorem FS.dirExists_mkdirParents_of_longer (fs : FS) (p q : Path)
    (h : p.length < q.length) :
    (fs.mkdirParents p).dirExists q = fs.dirExists q := by
  simp only [FS.dirExists]
  rw [decide_eq_decide, fs.mem_dirs_mkdirParents p q]
  constructor
  · rintro (hq | hq)
    · exact hq
    · exact absurd hq.length_le (by omega)
  · exact Or.inl

theorem FS.pathExists_mkdirParents_of_longer (fs : FS) (p q : Path)
    (h : p.length < q.length) :
    (fs.mkdirParents p).pathExists q = fs.pathExists q := by
  show ((fs.mkdirParents p).fileExists q || (fs.mkdirParents p).dirExists q) =
    (fs.fileExists q || fs.dirExists q)
  rw [fs.dirExists_mkdirParents_of_longer p q h, fs.fileExists_mkdirParents]

theorem FS.lookupFile_touch_ne (fs : FS) (p q : Path) (h : q ≠ p) :
    (fs.touch p).lookupFile q = fs.lookupFile q := by
  unfold FS.touch
  split
  · rfl
  · exact fs.lookupFile_setFile_ne p q (.text []) h

theorem FS.lookupFile_touch_self_of_not_dir (fs : FS) (p : Path)
    (hd : fs.dirExists p = false) :
    (fs.touch p).lookupFile p = some ((fs.lookupFile p).getD (.text [])) := by
  unfold FS.touch FS.pathExists
  rw [hd]
  cases hf : fs.lookupFile p with
  | some v => simp [FS.fileExists, hf]
  | none => simp [FS.fileExists, hf, fs.lookupFile_setFile_self p (.text [])]

/-! #### The per-file procedure on a migrated candidate -/

theorem append_one_ne_append_two (d : Path) (x a b : String) :
    d ++ [x] ≠ d ++ [a] ++ [b] := by
  intro h
  have hl := congrArg List.length h
  simp [List.length_append] at hl

theorem modPath_ne_testPath (q : Path) : q ++ ["mod.rs"] ≠ q ++ ["test.rs"] := by
  intro h
  have := List.append_cancel_left h
  simp at this

/-- The per-file procedure on a candidate that passes the skip guard and
decodes: lines 37–50 run, producing `migrateFS` and the final progress
message. -/
theorem processOne_migrate (fs : FS) (d : Path) (name : String) (lines : List String)
    (hrs : endsWithRs name = true)
    (hmk : fs.mkdirOk (d ++ [stem name]) = true)
    (hmod : fs.pathExists (d ++ [stem name] ++ ["mod.rs"]) = false)
    (hsrc : fs.lookupFile (d ++ [name]) = some (.text lines)) :
    processOne fs d name =
      .ok (migrateFS fs d name lines, [.done (d ++ [stem name])]) := by
  have hmod1 : (fs.mkdirParents (d ++ [stem name])).pathExists
      (d ++ [stem name] ++ ["mod.rs"]) = false := by
    rw [FS.pathExists_mkdirParents_of_longer fs _ _ (by simp)]
    exact hmod
  simp only [processOne, migrateFS, hrs, hmk, hmod1, FS.lookupFile_mkdirParents, hsrc,
    FS.lookupFile_setFile_self, if_true, Bool.false_eq_true, if_false]

theorem dirs_migrateFS (fs : FS) (d : Path) (name : String) (lines : List String) :
    (migrateFS fs d name lines).dirs = (fs.mkdirParents (d ++ [stem name])).dirs := by
  simp only [migrateFS]
  rw [FS.dirs_touch]
  split <;> rfl

theorem lookupFile_migrateFS_mod (fs : FS) (d : Path) (name : String) (lines : List String) :
    (migrateFS fs d name lines).lookupFile (d ++ [stem name] ++ ["mod.rs"]) =
      some (.text (if lines.take HEADER_LINES.length = HEADER_LINES then lines
        else HEADER_LINES ++ lines)) := by
  simp only [migrateFS]
  rw [FS.lookupFile_touch_ne _ _ _ (modPath_ne_testPath (d ++ [stem name]))]
  split <;> rw [FS.lookupFile_setFile_self]

theorem lookupFile_touch_eq_of (fs0 fsx : FS) (T : Path)
    (hl : fsx.lookupFile T = fs0.lookupFile T)
    (hd : fsx.dirExists T = false) :
    (fsx.touch T).lookupFile T = some ((fs0.lookupFile T).getD (.text [])) := by
  rw [FS.lookupFile_touch_self_of_not_dir fsx T hd, hl]

theorem lookupFile_migrateFS_test (fs : FS) (d : Path) (name : String) (lines : List String)
    (htd : fs.dirExists (d ++ [stem name] ++ ["test.rs"]) = false) :
    (migrateFS fs d name lines).lookupFile (d ++ [stem name] ++ ["test.rs"]) =
      some ((fs.lookupFile (d ++ [stem name] ++ ["test.rs"])).getD (.text [])) := by
  have hTmod : d ++ [stem name] ++ ["test.rs"] ≠ d ++ [stem name] ++ ["mod.rs"] :=
    Ne.symm (modPath_ne_testPath (d ++ [stem name]))
  have hTsrc : d ++ [stem name] ++ ["test.rs"] ≠ d ++ [name] :=
    Ne.symm (append_one_ne_append_two d name (stem name) "test.rs")
  have hmk : (fs.mkdirParents (d ++ [stem name])).dirExists
      (d ++ [stem name] ++ ["test.rs"]) = false := by
    rw [FS.dirExists_mkdirParents_of_longer fs _ _ (by simp)]
    exact htd
  simp only [migrateFS]
  split <;>
    exact lookupFile_touch_eq_of fs _ _
      (by simp only [FS.lookupFile_setFile_ne _ _ _ _ hTmod,
        FS.lookupFile_removeFile_ne _ _ _ hTsrc, FS.lookupFile_mkdirParents])
      hmk

theorem lookupFile_migrateFS_source (fs : FS) (d : Path) (name : String)
    (lines : List String) :
    (migrateFS fs d name lines).lookupFile (d ++ [name]) = none := by
  have hSmod : d ++ [name] ≠ d ++ [stem name] ++ ["mod.rs"] :=
    append_one_ne_append_two d name (stem name) "mod.rs"
  have hStest : d ++ [name] ≠ d ++ [stem name] ++ ["test.rs"] :=
    append_one_ne_append_two d name (stem name) "test.rs"
  simp only [migrateFS]
  rw [FS.lookupFile_touch_ne _ _ _ hStest]
  split <;>
    simp only [FS.lookupFile_setFile_ne _ _ _ _ hSmod, FS.lookupFile_removeFile_self]

/-- Claim C1: (evaluation at the failing input).  A first run on a root holding
only `foo.rs` completes; running `main` a second time on the resulting tree
is not a no-op: it emits no skip notice at all and migrates the module and
test files created by the first run into nested `foo/mod/` and `foo/test/`
directories, so the final filesystem state differs from the single-run
state. -/
theorem C1_second_run_changes_state :
    (main 10 fsFoo).status = .ok ∧
    (main 10 (main 10 fsFoo).fs).status = .ok ∧
    (main 10 (main 10 fsFoo).fs).outputs =
      [.done ["foo", "mod"], .done ["foo", "test"]] ∧
    (main 10 (main 10 fsFoo).fs).fs.fileExists ["foo", "mod", "mod.rs"] = true ∧
    (main 10 (main 10 fsFoo).fs).fs.fileExists ["foo", "mod.rs"] = false ∧
    (main 10 (main 10 fsFoo).fs).fs ≠ (main 10 fsFoo).fs := by
  decide

/-- Claim C2: (counterexample).  A candidate whose content is exactly the header
block is migrated (`h.rs` is reported processed and `h/mod.rs` is created),
but the resulting module file holds the original lines only — not the header
block followed by the original lines, which would be two copies of the
header. -/
theorem C2_counterexample :
    (main 10 fsHdr).status = .ok ∧
    (main 10 fsHdr).outputs = [.done ["h"]] ∧
    (main 10 fsHdr).fs.lookupFile ["h", "mod.rs"] = some (.text HEADER_LINES) ∧
    HEADER_LINES ≠ HEADER_LINES ++ HEADER_LINES := by
  decide

/-- Claim C3: (counterexample).  With a pre-existing directory `bar/` next to
the candidate `bar.rs`, the candidate is migrated (the run reports
`bar`), yet after the run finishes `bar/mod.rs` and `bar/test.rs` no longer
exist: the walk later descends into the pre-existing `bar/` and migrates the
freshly created module and test files into `bar/mod/` and `bar/test/`. -/
theorem C3_counterexample :
    (main 10 fsBar).status = .ok ∧
    (main 10 fsBar).outputs =
      [.done ["bar"], .done ["bar", "mod"], .done ["bar", "test"]] ∧
    (main 10 fsBar).fs.fileExists ["bar", "mod.rs"] = false ∧
    (main 10 fsBar).fs.fileExists ["bar", "test.rs"] = false := by
  decide

/-- Claim C5: (counterexample).  A migrated file whose first three lines equal
the header block but which contains a second copy right after keeps its
content unchanged, so after processing the header block does not appear
exactly once at the start of the file: both the first and the second group
of three lines equal the header block. -/
theorem C5_counterexample :
    (main 10 fsDup).status = .ok ∧
    (main 10 fsDup).fs.lookupFile ["d", "mod.rs"] =
      some (.text (HEADER_LINES ++ HEADER_LINES)) ∧
    (HEADER_LINES ++ HEADER_LINES).take HEADER_LINES.length = HEADER_LINES ∧
    ((HEADER_LINES ++ HEADER_LINES).drop HEADER_LINES.length).take
      HEADER_LINES.length = HEADER_LINES := by
  decide

/-- Claim C7: (counterexample).  A pre-existing non-empty test file
`bar/test.rs` is not left unmodified by the run: the walk later treats it as
a candidate of the pre-existing directory `bar/`, so after the run it no
longer exists at `bar/test.rs`, and its content has been relocated to
`bar/test/mod.rs` with the header block prepended. -/
theorem C7_counterexample :
    fsBarT.lookupFile ["bar", "test.rs"] = some (.text ["keep\n"]) ∧
    (main 10 fsBarT).status = .ok ∧
    (main 10 fsBarT).fs.lookupFile ["bar", "test.rs"] = none ∧
    (main 10 fsBarT).fs.lookupFile ["bar", "test", "mod.rs"] =
      some (.text (HEADER_LINES ++ ["keep\n"])) := by
  decide

/-- Claim C9: (counterexample).  The module file `bar/mod.rs` does not exist
before the run; it is created by migrating `bar.rs`, and — because the
pre-existing directory `bar/` is in the walk's pending list — it is then
selected as a candidate by the same run, which migrates it to
`bar/mod/mod.rs`. -/
theorem C9_counterexample :
    fsBar.lookupFile ["bar", "mod.rs"] = none ∧
    (main 10 fsBar).visited = [[], ["bar"]] ∧
    (main 10 fsBar).fs.fileExists ["bar", "mod", "mod.rs"] = true := by
  decide

/-- Claim C10:.  On a root holding a candidate `bad.rs` whose bytes are not
valid UTF-8, the run aborts with the uncaught decoding error raised when
opening `bad/mod.rs`, after the move already happened: in the final state the
candidate sits at `bad/mod.rs` with its content unchanged (no header), and
its original path `bad.rs` is vacated. -/
theorem C10_decode_error_after_move :
    (main 10 fsBad).status = .err (.badUtf8 ["bad", "mod.rs"]) ∧
    (main 10 fsBad).fs.lookupFile ["bad", "mod.rs"] = some .binary ∧
    (main 10 fsBad).fs.fileExists ["bad.rs"] = false := by
  decide

/-- Claim C2: (amended).  For a candidate `d/name` that is migrated (its module
path did not already exist), the module file immediately after the per-file
procedure holds the header block followed by the candidate's original lines
in order — unless the candidate's first `k` lines (`k` = header length)
already equal the header block, in which case it holds the original lines
unchanged. -/
theorem C2_amended_content (fs : FS) (d : Path) (name : String) (lines : List String)
    (hrs : endsWithRs name = true)
    (hmk : fs.mkdirOk (d ++ [stem name]) = true)
    (hmod : fs.pathExists (d ++ [stem name] ++ ["mod.rs"]) = false)
    (hsrc : fs.lookupFile (d ++ [name]) = some (.text lines)) :
    ∃ fsF, processOne fs d name = .ok (fsF, [.done (d ++ [stem name])]) ∧
      fsF.lookupFile (d ++ [stem name] ++ ["mod.rs"]) =
        some (.text (if lines.take HEADER_LINES.length = HEADER_LINES then lines
          else HEADER_LINES ++ lines)) :=
  ⟨migrateFS fs d name lines, processOne_migrate fs d name lines hrs hmk hmod hsrc,
    lookupFile_migrateFS_mod fs d name lines⟩

theorem C2_amended_content_witness :
    ∃ fsF, processOne fsFoo [] "foo.rs" = .ok (fsF, [.done ["foo"]]) ∧
      fsF.lookupFile ["foo", "mod.rs"] =
        some (.text (HEADER_LINES ++ ["fn x()\n"])) :=
  C2_amended_content fsFoo [] "foo.rs" ["fn x()\n"]
    (by decide) (by decide) (by decide) (by decide)

/-- Claim C3: (amended).  For a candidate `d/name` that is migrated, immediately
after the per-file procedure the module directory exists, the module file
and the test file exist inside it, and the original path is vacated.  (As
the counterexample above shows, this need not persist to the end of the run when
the walk later descends into the module directory.) -/
theorem C3_amended_layout (fs : FS) (d : Path) (name : String) (lines : List String)
    (hrs : endsWithRs name = true)
    (hmk : fs.mkdirOk (d ++ [stem name]) = true)
    (hmod : fs.pathExists (d ++ [stem name] ++ ["mod.rs"]) = false)
    (hsrc : fs.lookupFile (d ++ [name]) = some (.text lines))
    (htd : fs.dirExists (d ++ [stem name] ++ ["test.rs"]) = false) :
    ∃ fsF, processOne fs d name = .ok (fsF, [.done (d ++ [stem name])]) ∧
      d ++ [stem name] ∈ fsF.dirs ∧
      fsF.fileExists (d ++ [stem name] ++ ["mod.rs"]) = true ∧
      fsF.fileExists (d ++ [stem name] ++ ["test.rs"]) = true ∧
      fsF.fileExists (d ++ [name]) = false := by
  refine ⟨migrateFS fs d name lines, processOne_migrate fs d name lines hrs hmk hmod hsrc,
    ?_, ?_, ?_, ?_⟩
  · rw [dirs_migrateFS]
    exact fs.self_mem_dirs_mkdirParents (d ++ [stem name])
  · unfold FS.fileExists
    rw [lookupFile_migrateFS_mod fs d name lines]
    rfl
  · unfold FS.fileExists
    rw [lookupFile_migrateFS_test fs d name lines htd]
    rfl
  · unfold FS.fileExists
    rw [lookupFile_migrateFS_source fs d name lines]
    rfl

theorem C3_amended_layout_witness :
    ∃ fsF, processOne fsFoo [] "foo.rs" = .ok (fsF, [.done ["foo"]]) ∧
      (["foo"] : Path) ∈ fsF.dirs ∧
      fsF.fileExists ["foo", "mod.rs"] = true ∧
      fsF.fileExists ["foo", "test.rs"] = true ∧
      fsF.fileExists ["foo.rs"] = false :=
  C3_amended_layout fsFoo [] "foo.rs" ["fn x()\n"]
    (by decide) (by decide) (by decide) (by decide) (by decide)

/-- Claim C4:.  A candidate whose computed module path already exists is
handled non-fatally: the per-file procedure returns normally with exactly
the skip notice naming that module path, and the file system's regular
files — in particular the original candidate file — are completely
untouched (only the `mkdir` of the module directory has happened, which
never modifies files). -/
theorem C4_skip_guard (fs : FS) (d : Path) (name : String)
    (hrs : endsWithRs name = true)
    (hmk : fs.mkdirOk (d ++ [stem name]) = true)
    (hmod : fs.pathExists (d ++ [stem name] ++ ["mod.rs"]) = true) :
    processOne fs d name =
      .ok (fs.mkdirParents (d ++ [stem name]), [.skip (d ++ [stem name] ++ ["mod.rs"])]) ∧
    (fs.mkdirParents (d ++ [stem name])).files = fs.files := by
  have hmod1 : (fs.mkdirParents (d ++ [stem name])).pathExists
      (d ++ [stem name] ++ ["mod.rs"]) = true := by
    rw [FS.pathExists_mkdirParents_of_longer fs _ _ (by simp)]
    exact hmod
  refine ⟨?_, rfl⟩
  simp only [processOne, hrs, hmk, hmod1, if_true]

theorem C4_skip_guard_witness :
    processOne fsPre [] "bar.rs" =
      .ok (fsPre.mkdirParents ["bar"], [.skip ["bar", "mod.rs"]]) ∧
    (fsPre.mkdirParents ["bar"]).files = fsPre.files :=
  C4_skip_guard fsPre [] "bar.rs" (by decide) (by decide) (by decide)

/-- Claim C5: (amended).  For a migrated candidate whose first `k` lines
(`k` = header length) already equal the header block, the rewrite step does
nothing: the module file's content equals the original lines unchanged, so
the run adds no further copy of the header.  (As the
counterexample above shows,
the header need not appear exactly once — a file that already held two
copies keeps both.) -/
theorem C5_amended_no_rewrite (fs : FS) (d : Path) (name : String) (lines : List String)
    (hrs : endsWithRs name = true)
    (hmk : fs.mkdirOk (d ++ [stem name]) = true)
    (hmod : fs.pathExists (d ++ [stem name] ++ ["mod.rs"]) = false)
    (hsrc : fs.lookupFile (d ++ [name]) = some (.text lines))
    (hhdr : lines.take HEADER_LINES.length = HEADER_LINES) :
    ∃ fsF, processOne fs d name = .ok (fsF, [.done (d ++ [stem name])]) ∧
      fsF.lookupFile (d ++ [stem name] ++ ["mod.rs"]) = some (.text lines) := by
  refine ⟨migrateFS fs d name lines,
    processOne_migrate fs d name lines hrs hmk hmod hsrc, ?_⟩
  rw [lookupFile_migrateFS_mod fs d name lines, if_pos hhdr]

theorem C5_amended_no_rewrite_witness :
    ∃ fsF, processOne fsHdr [] "h.rs" = .ok (fsF, [.done ["h"]]) ∧
      fsF.lookupFile ["h", "mod.rs"] = some (.text HEADER_LINES) :=
  C5_amended_no_rewrite fsHdr [] "h.rs" HEADER_LINES
    (by decide) (by decide) (by decide) (by decide) (by decide)

/-- Claim C6:.  A migrated candidate with fewer lines than the header block
(including an empty file) is handled without any out-of-bounds access — the
procedure is total and returns normally — and the comparison counts as
"header absent": the full header block is prepended to the (possibly empty)
content. -/
theorem C6_short_file_prepends (fs : FS) (d : Path) (name : String) (lines : List String)
    (hrs : endsWithRs name = true)
    (hmk : fs.mkdirOk (d ++ [stem name]) = true)
    (hmod : fs.pathExists (d ++ [stem name] ++ ["mod.rs"]) = false)
    (hsrc : fs.lookupFile (d ++ [name]) = some (.text lines))
    (hlen : lines.length < HEADER_LINES.length) :
    ∃ fsF, processOne fs d name = .ok (fsF, [.done (d ++ [stem name])]) ∧
      fsF.lookupFile (d ++ [stem name] ++ ["mod.rs"]) =
        some (.text (HEADER_LINES ++ lines)) := by
  have hne : lines.take HEADER_LINES.length ≠ HEADER_LINES := by
    intro h
    have hl := congrArg List.length h
    rw [List.length_take] at hl
    omega
  refine ⟨migrateFS fs d name lines,
    processOne_migrate fs d name lines hrs hmk hmod hsrc, ?_⟩
  rw [lookupFile_migrateFS_mod fs d name lines, if_neg hne]

theorem C6_short_file_prepends_witness :
    ∃ fsF, processOne fsFoo [] "foo.rs" = .ok (fsF, [.done ["foo"]]) ∧
      fsF.lookupFile ["foo", "mod.rs"] =
        some (.text (HEADER_LINES ++ ["fn x()\n"])) :=
  C6_short_file_prepends fsFoo [] "foo.rs" ["fn x()\n"]
    (by decide) (by decide) (by decide) (by decide) (by decide)

/-- Claim C7: (amended).  For a migrated candidate, the touch step gives the
test path an empty file when no file was there, and an already-existing test
file keeps its content through the candidate's own processing.  (As
the counterexample above shows, a later step of the same run may still select the
test file itself as a candidate and relocate it when its directory
pre-existed.) -/
theorem C7_amended_touch (fs : FS) (d : Path) (name : String) (lines : List String)
    (hrs : endsWithRs name = true)
    (hmk : fs.mkdirOk (d ++ [stem name]) = true)
    (hmod : fs.pathExists (d ++ [stem name] ++ ["mod.rs"]) = false)
    (hsrc : fs.lookupFile (d ++ [name]) = some (.text lines))
    (htd : fs.dirExists (d ++ [stem name] ++ ["test.rs"]) = false) :
    ∃ fsF, processOne fs d name = .ok (fsF, [.done (d ++ [stem name])]) ∧
      fsF.lookupFile (d ++ [stem name] ++ ["test.rs"]) =
        some ((fs.lookupFile (d ++ [stem name] ++ ["test.rs"])).getD (.text [])) :=
  ⟨migrateFS fs d name lines, processOne_migrate fs d name lines hrs hmk hmod hsrc,
    lookupFile_migrateFS_test fs d name lines htd⟩

theorem C7_amended_touch_witness :
    ∃ fsF, processOne fsBarT [] "bar.rs" = .ok (fsF, [.done ["bar"]]) ∧
      fsF.lookupFile ["bar", "test.rs"] = some (.text ["keep\n"]) :=
  C7_amended_touch fsBarT [] "bar.rs" ["x\n"]
    (by decide) (by decide) (by decide) (by decide) (by decide)

/-- Claim C8:.  Eligibility is decided solely by the `.rs` suffix: a file whose
name does not end in `.rs` is skipped with no effect and no output, while a
file named `mod.rs` — the canonical module name itself — is processed like
any other candidate, with stem `mod` and target `d/mod/mod.rs`: when that
target does not exist it is moved there rather than being recognized as
already migrated, vacating `d/mod.rs`. -/
theorem C8_suffix_only_eligibility :
    (∀ (fs : FS) (d : Path) (name : String), endsWithRs name = false →
      processOne fs d name = .ok (fs, [])) ∧
    (∀ (fs : FS) (d : Path) (lines : List String),
      fs.mkdirOk (d ++ ["mod"]) = true →
      fs.pathExists (d ++ ["mod"] ++ ["mod.rs"]) = false →
      fs.lookupFile (d ++ ["mod.rs"]) = some (.text lines) →
      ∃ fsF, processOne fs d "mod.rs" = .ok (fsF, [.done (d ++ ["mod"])]) ∧
        fsF.fileExists (d ++ ["mod"] ++ ["mod.rs"]) = true ∧
        fsF.lookupFile (d ++ ["mod.rs"]) = none) := by
  constructor
  · intro fs d name h
    simp only [processOne, h, Bool.false_eq_true, if_false]
  · intro fs d lines hmk hmod hsrc
    have hstem : stem "mod.rs" = "mod" := by decide
    refine ⟨migrateFS fs d "mod.rs" lines, ?_, ?_, ?_⟩
    · have h := processOne_migrate fs d "mod.rs" lines (by decide)
        (by rw [hstem]; exact hmk) (by rw [hstem]; exact hmod)
        (by exact hsrc)
      rw [h, hstem]
    · unfold FS.fileExists
      have h := lookupFile_migrateFS_mod fs d "mod.rs" lines
      rw [hstem] at h
      rw [h]
      rfl
    · exact lookupFile_migrateFS_source fs d "mod.rs" lines

theorem C8_suffix_only_eligibility_witness :
    processOne fsMod [] "notes.txt" = .ok (fsMod, []) ∧
    (∃ fsF, processOne fsMod [] "mod.rs" = .ok (fsF, [.done ["mod"]]) ∧
      fsF.fileExists ["mod", "mod.rs"] = true ∧
      fsF.lookupFile ["mod.rs"] = none) :=
  ⟨C8_suffix_only_eligibility.1 fsMod [] "notes.txt" (by decide),
    C8_suffix_only_eligibility.2 fsMod [] ["y\n"] (by decide) (by decide) (by decide)⟩

/-! #### The walk never traverses a directory it created (towards C9) -/

theorem childName_eq_some (d p : Path) (x : String) :
    childName d p = some x ↔ p = d ++ [x] := by
  have hrev : p = p.reverse.reverse := (List.reverse_reverse p).symm
  constructor
  · intro h
    unfold childName at h
    cases hp : p.reverse with
    | nil =>
      simp only [hp] at h
      exact absurd h (by simp)
    | cons y r =>
      simp only [hp] at h
      split at h
      · next hr =>
        injection h with hxy
        rw [hrev, hp]
        simp [hr, hxy]
      · exact absurd h (by simp)
  · rintro rfl
    unfold childName
    simp [List.reverse_append]

theorem mem_childDirNames (fs : FS) (d : Path) (x : String) :
    x ∈ fs.childDirNames d ↔ d ++ [x] ∈ fs.dirs := by
  unfold FS.childDirNames
  rw [List.mem_filterMap]
  constructor
  · rintro ⟨p, hp, hx⟩
    rw [childName_eq_some] at hx
    exact hx ▸ hp
  · intro h
    exact ⟨d ++ [x], h, (childName_eq_some d (d ++ [x]) x).mpr rfl⟩

theorem nodup_childDirNames (fs : FS) (d : Path) (h : fs.dirs.Nodup) :
    (fs.childDirNames d).Nodup :=
  List.Nodup.filterMap
    (fun a b x ha hb => by
      rw [Option.mem_def, childName_eq_some] at ha hb
      rw [ha, hb]) h

theorem prefix_dropLast_of_ne (p q : Path) (h : q <+: p) (hne : q ≠ p) :
    q <+: p.dropLast := by
  have hle := h.length_le
  have hlt : q.length < p.length := by
    rcases Nat.lt_or_ge q.length p.length with hl | hl
    · exact hl
    · exact absurd (h.eq_of_length (Nat.le_antisymm hle hl)) hne
  rw [List.prefix_iff_eq_take.mp h, List.dropLast_eq_take]
  exact List.take_prefix_take_left p (by omega)

theorem ancestor_mem_aux (dirs : List Path) (hroot : [] ∈ dirs)
    (hcl : ∀ p ∈ dirs, p = [] ∨ p.dropLast ∈ dirs) :
    ∀ (n : Nat) (p : Path), p.length ≤ n → p ∈ dirs → ∀ q, q <+: p → q ∈ dirs := by
  intro n
  induction n with
  | zero =>
    intro p hlen hp q hq
    have hp0 : p = [] := List.length_eq_zero.mp (Nat.le_zero.mp hlen)
    subst hp0
    rw [List.prefix_nil.mp hq]
    exact hroot
  | succ n ih =>
    intro p hlen hp q hq
    by_cases hqp : q = p
    · exact hqp ▸ hp
    · rcases hcl p hp with hp0 | hdl
      · subst hp0
        rw [List.prefix_nil.mp hq]
        exact hroot
      · exact ih p.dropLast (by rw [List.length_dropLast]; omega) hdl q
          (prefix_dropLast_of_ne p q hq hqp)

theorem FS.ancestor_mem (fs : FS) (hwf : fs.wellFormed) (p q : Path)
    (hp : p ∈ fs.dirs) (hq : q <+: p) : q ∈ fs.dirs :=
  ancestor_mem_aux fs.dirs hwf.2.1 hwf.2.2 p.length p (Nat.le_refl _) hp q hq

theorem nodup_insertDir (ds : List Path) (q : Path) (h : ds.Nodup) :
    (insertDir ds q).Nodup := by
  unfold insertDir
  split
  · exact h
  · next hq => simp [List.nodup_append, h, hq]

theorem nodup_foldl_insertDir (l : List Path) :
    ∀ ds : List Path, ds.Nodup → (l.foldl insertDir ds).Nodup := by
  induction l with
  | nil => intro ds h; exact h
  | cons a t ih => intro ds h; exact ih _ (nodup_insertDir ds a h)

theorem FS.dirs_subset_mkdirParents (fs : FS) (p : Path) :
    fs.dirs ⊆ (fs.mkdirParents p).dirs :=
  fun q hq => (fs.mem_dirs_mkdirParents p q).mpr (Or.inl hq)

theorem FS.wellFormed_mkdirParents (fs : FS) (p : Path) (hwf : fs.wellFormed) :
    (fs.mkdirParents p).wellFormed := by
  refine ⟨nodup_foldl_insertDir _ _ hwf.1,
    (fs.mem_dirs_mkdirParents p []).mpr (Or.inl hwf.2.1), ?_⟩
  intro r hr
  rcases (fs.mem_dirs_mkdirParents p r).mp hr with hr | hr
  · rcases hwf.2.2 r hr with h0 | hdl
    · exact Or.inl h0
    · exact Or.inr ((fs.mem_dirs_mkdirParents p r.dropLast).mpr (Or.inl hdl))
  · have hdp : r.dropLast <+: r :=
      List.prefix_iff_eq_take.mpr (by rw [List.length_dropLast, ← List.dropLast_eq_take])
    exact Or.inr ((fs.mem_dirs_mkdirParents p r.dropLast).mpr (Or.inr (hdp.trans hr)))

/-- The filesystem coming out of `processOne` (normally or exceptionally)
has either the same directory list as the input, or the one produced by the
`mkdir` of the candidate's module directory. -/
theorem processOne_dirs (fs : FS) (d : Path) (n : String) (fs1 : FS)
    (h : (∃ out, processOne fs d n = Except.ok (fs1, out)) ∨
      (∃ out e, processOne fs d n = Except.error (fs1, out, e))) :
    fs1.dirs = fs.dirs ∨ fs1.dirs = (fs.mkdirParents (d ++ [stem n])).dirs := by
  by_cases h1 : endsWithRs n = true
  · by_cases h2 : fs.mkdirOk (d ++ [stem n]) = true
    · by_cases h3 : (fs.mkdirParents (d ++ [stem n])).pathExists
          (d ++ [stem n] ++ ["mod.rs"]) = true
      · rcases h with ⟨out, h⟩ | ⟨out, e, h⟩ <;>
          simp only [processOne, h1, h2, h3, if_true] at h
        · injection h with h'
          injection h' with h5 h6
          subst h5
          exact Or.inr rfl
        · exact absurd h (by simp)
      · rw [Bool.not_eq_true] at h3
        cases h4 : fs.lookupFile (d ++ [n]) with
        | none =>
          rcases h with ⟨out, h⟩ | ⟨out, e, h⟩ <;>
            simp only [processOne, h1, h2, h3, FS.lookupFile_mkdirParents, h4,
              Bool.false_eq_true, if_true, if_false] at h
          · exact absurd h (by simp)
          · injection h with h'
            injection h' with h5 h6
            subst h5
            exact Or.inr rfl
        | some data =>
          cases data with
          | binary =>
            rcases h with ⟨out, h⟩ | ⟨out, e, h⟩ <;>
              simp only [processOne, h1, h2, h3, FS.lookupFile_mkdirParents, h4,
                FS.lookupFile_setFile_self, Bool.false_eq_true, if_true, if_false] at h
            · exact absurd h (by simp)
            · injection h with h'
              injection h' with h5 h6
              subst h5
              exact Or.inr rfl
          | text lines =>
            rcases h with ⟨out, h⟩ | ⟨out, e, h⟩ <;>
              simp only [processOne, h1, h2, h3, FS.lookupFile_mkdirParents, h4,
                FS.lookupFile_setFile_self, Bool.false_eq_true, if_true, if_false] at h
            · injection h with h'
              injection h' with h5 h6
              subst h5
              right
              rw [FS.dirs_touch]
              split <;> rfl
            · exact absurd h (by simp)
    · rw [Bool.not_eq_true] at h2
      rcases h with ⟨out, h⟩ | ⟨out, e, h⟩ <;>
        simp only [processOne, h1, h2, Bool.false_eq_true, if_true, if_false] at h
      · exact absurd h (by simp)
      · injection h with h'
        injection h' with h5 h6
        subst h5
        exact Or.inl rfl
  · rw [Bool.not_eq_true] at h1
    rcases h with ⟨out, h⟩ | ⟨out, e, h⟩ <;>
      simp only [processOne, h1, Bool.false_eq_true, if_false] at h
    · injection h with h'
      injection h' with h5 h6
      subst h5
      exact Or.inl rfl
    · exact absurd h (by simp)

theorem processOne_preserves (fs : FS) (d : Path) (n : String) (fs1 : FS)
    (hwf : fs.wellFormed) (hd : d ∈ fs.dirs)
    (h : (∃ out, processOne fs d n = Except.ok (fs1, out)) ∨
      (∃ out e, processOne fs d n = Except.error (fs1, out, e))) :
    fs1.wellFormed ∧ fs.dirs ⊆ fs1.dirs ∧
      ∀ q ∈ fs1.dirs, q ∈ fs.dirs ∨ ∃ x, q = d ++ [x] := by
  rcases processOne_dirs fs d n fs1 h with hdirs | hdirs
  · refine ⟨?_, ?_, ?_⟩
    · unfold FS.wellFormed
      rw [hdirs]
      exact hwf
    · intro q hq
      rw [hdirs]
      exact hq
    · intro q hq
      rw [hdirs] at hq
      exact Or.inl hq
  · refine ⟨?_, ?_, ?_⟩
    · have hw := fs.wellFormed_mkdirParents (d ++ [stem n]) hwf
      unfold FS.wellFormed at hw ⊢
      rw [hdirs]
      exact hw
    · intro q hq
      rw [hdirs]
      exact fs.dirs_subset_mkdirParents (d ++ [stem n]) hq
    · intro q hq
      rw [hdirs] at hq
      rcases (fs.mem_dirs_mkdirParents (d ++ [stem n]) q).mp hq with hq | hq
      · exact Or.inl hq
      · rcases List.prefix_concat_iff.mp hq with hq | hq
        · exact Or.inr ⟨stem n, hq⟩
        · exact Or.inl (fs.ancestor_mem hwf d q hd hq)

theorem processFiles_preserves (d : Path) (ns : List String) :
    ∀ fs fs1 : FS, fs.wellFormed → d ∈ fs.dirs →
      ((∃ out, processFiles fs d ns = Except.ok (fs1, out)) ∨
        (∃ out e, processFiles fs d ns = Except.error (fs1, out, e))) →
      fs1.wellFormed ∧ fs.dirs ⊆ fs1.dirs ∧
        ∀ q ∈ fs1.dirs, q ∈ fs.dirs ∨ ∃ x, q = d ++ [x] := by
  induction ns with
  | nil =>
    intro fs fs1 hwf hd h
    rcases h with ⟨out, h⟩ | ⟨out, e, h⟩
    · injection h with h'
      injection h' with h5 h6
      subst h5
      exact ⟨hwf, fun q hq => hq, fun q hq => Or.inl hq⟩
    · exact absurd h (by simp [processFiles])
  | cons n ns ih =>
    intro fs fs1 hwf hd h
    cases hpo : processOne fs d n with
    | error e0 =>
      obtain ⟨fsE, outE, eE⟩ := e0
      have hone := processOne_preserves fs d n fsE hwf hd (Or.inr ⟨outE, eE, hpo⟩)
      rcases h with ⟨out, h⟩ | ⟨out, e, h⟩ <;> simp only [processFiles, hpo] at h
      · exact absurd h (by simp)
      · injection h with h'
        injection h' with h5 h6
        subst h5
        exact hone
    | ok pr =>
      obtain ⟨fsA, outA⟩ := pr
      have hone := processOne_preserves fs d n fsA hwf hd (Or.inl ⟨outA, hpo⟩)
      have hdA : d ∈ fsA.dirs := hone.2.1 hd
      cases hrec : processFiles fsA d ns with
      | error e1 =>
        obtain ⟨fsE, outE, eE⟩ := e1
        have hrest := ih fsA fsE hone.1 hdA (Or.inr ⟨outE, eE, hrec⟩)
        rcases h with ⟨out, h⟩ | ⟨out, e, h⟩ <;> simp only [processFiles, hpo, hrec] at h
        · exact absurd h (by simp)
        · injection h with h'
          injection h' with h5 h6
          subst h5
          exact ⟨hrest.1, fun q hq => hrest.2.1 (hone.2.1 hq),
            fun q hq => (hrest.2.2 q hq).elim (fun hqa => hone.2.2 q hqa) Or.inr⟩
      | ok pr1 =>
        obtain ⟨fsB, outB⟩ := pr1
        have hrest := ih fsA fsB hone.1 hdA (Or.inl ⟨outB, hrec⟩)
        rcases h with ⟨out, h⟩ | ⟨out, e, h⟩ <;> simp only [processFiles, hpo, hrec] at h
        · injection h with h'
          injection h' with h5 h6
          subst h5
          exact ⟨hrest.1, fun q hq => hrest.2.1 (hone.2.1 hq),
            fun q hq => (hrest.2.2 q hq).elim (fun hqa => hone.2.2 q hqa) Or.inr⟩
        · exact absurd h (by simp)

theorem append_singleton_prefix_eq (d : Path) (x y : String)
    (h : d ++ [x] <+: d ++ [y]) : x = y := by
  have := h.eq_of_length (by simp)
  simpa using List.append_cancel_left this

/-- Invariant induction over the walk worklist: starting from a filesystem
whose directories were all present in `fs0`, with a pending stack of
directories that existed in `fs0`, form an antichain under the prefix
order, and have no freshly created directory inside their subtrees, the
walk only ever visits directories of `fs0`. -/
theorem walkAux_visited_mem (fs0 : FS) (fuel : Nat) :
    ∀ (fs : FS) (stack : List Path),
      fs.wellFormed →
      fs0.dirs ⊆ fs.dirs →
      (∀ q ∈ stack, q ∈ fs.dirs) →
      (∀ q ∈ stack, q ∈ fs0.dirs) →
      stack.Pairwise (fun a b => ¬a <+: b ∧ ¬b <+: a) →
      (∀ p ∈ fs.dirs, p ∉ fs0.dirs → ∀ q ∈ stack, ¬q <+: p) →
      ∀ p ∈ (walkAux fuel fs stack).visited, p ∈ fs0.dirs := by
  induction fuel with
  | zero =>
    intro fs stack _ _ _ _ _ _ p hp
    cases stack with
    | nil => simp [walkAux] at hp
    | cons d rest => simp [walkAux] at hp
  | succ fuel ih =>
    intro fs stack hwf hsub hstackSub hstackOld hanti hfresh p hp
    cases stack with
    | nil => simp [walkAux] at hp
    | cons d rest =>
      have hd_fs : d ∈ fs.dirs := hstackSub d (List.mem_cons_self d rest)
      have hd_old : d ∈ fs0.dirs := hstackOld d (List.mem_cons_self d rest)
      have hanti_head := (List.pairwise_cons.mp hanti).1
      have hanti_rest := (List.pairwise_cons.mp hanti).2
      simp only [walkAux] at hp
      cases hpf : processFiles fs d (fs.childFileNames d) with
      | error e0 =>
        obtain ⟨fsE, outE, eE⟩ := e0
        rw [hpf] at hp
        simp only [List.mem_singleton] at hp
        exact hp ▸ hd_old
      | ok pr =>
        obtain ⟨fs1, out1⟩ := pr
        rw [hpf] at hp
        simp only [List.mem_cons] at hp
        rcases hp with rfl | hp
        · exact hd_old
        · obtain ⟨hwf1, hsub1, hnew1⟩ :=
            processFiles_preserves d (fs.childFileNames d) fs fs1 hwf hd_fs
              (Or.inl ⟨out1, hpf⟩)
          have hS : ∀ x ∈ fs.childDirNames d, d ++ [x] ∈ fs.dirs :=
            fun x hx => (mem_childDirNames fs d x).mp hx
          refine ih fs1 ((fs.childDirNames d).map (fun x => d ++ [x]) ++ rest)
            hwf1 (fun q hq => hsub1 (hsub hq)) ?_ ?_ ?_ ?_ p hp
          · intro q hq
            rcases List.mem_append.mp hq with hq | hq
            · obtain ⟨x, hx, rfl⟩ := List.mem_map.mp hq
              exact hsub1 (hS x hx)
            · exact hsub1 (hstackSub q (List.mem_cons_of_mem d hq))
          · intro q hq
            rcases List.mem_append.mp hq with hq | hq
            · obtain ⟨x, hx, rfl⟩ := List.mem_map.mp hq
              by_cases hq0 : d ++ [x] ∈ fs0.dirs
              · exact hq0
              · exact absurd (List.prefix_append d [x])
                  (hfresh (d ++ [x]) (hS x hx) hq0 d (List.mem_cons_self d rest))
            · exact hstackOld q (List.mem_cons_of_mem d hq)
          · rw [List.pairwise_append]
            refine ⟨?_, hanti_rest, ?_⟩
            · refine List.Pairwise.map _ ?_ (nodup_childDirNames fs d hwf.1)
              intro a b hab
              exact ⟨fun hpre => hab (append_singleton_prefix_eq d a b hpre),
                fun hpre => hab ((append_singleton_prefix_eq d b a hpre).symm)⟩
            · intro a ha b hb
              obtain ⟨x, hx, rfl⟩ := List.mem_map.mp ha
              have hdb := hanti_head b hb
              constructor
              · intro hab
                exact hdb.1 ((List.prefix_append d [x]).trans hab)
              · intro hba
                rcases List.prefix_concat_iff.mp hba with hba | hba
                · exact hdb.1 (hba ▸ List.prefix_append d [x])
                · exact hdb.2 hba
          · intro pp hpp hpp0 q hq hqpp
            by_cases hppfs : pp ∈ fs.dirs
            · rcases List.mem_append.mp hq with hq | hq
              · obtain ⟨x, hx, rfl⟩ := List.mem_map.mp hq
                exact hfresh pp hppfs hpp0 d (List.mem_cons_self d rest)
                  ((List.prefix_append d [x]).trans hqpp)
              · exact hfresh pp hppfs hpp0 q (List.mem_cons_of_mem d hq) hqpp
            · rcases hnew1 pp hpp with hin | ⟨y, rfl⟩
              · exact hppfs hin
              · rcases List.mem_append.mp hq with hq | hq
                · obtain ⟨x, hx, rfl⟩ := List.mem_map.mp hq
                  exact hppfs ((append_singleton_prefix_eq d x y hqpp) ▸ hS x hx)
                · rcases List.prefix_concat_iff.mp hqpp with hba | hba
                  · exact hppfs (hba ▸ hstackSub q (List.mem_cons_of_mem d hq))
                  · exact (hanti_head q hq).2 hba

/-- Claim C9: (amended).  Each directory's child list is read when the walk
reaches it, before that directory's files are processed, so the run never
traverses a directory that did not already exist before the run — in
particular, a module directory created by the run is never traversed by
that same run.  (A module *file* created by the run can still be selected
as a candidate in the same run, inside a pre-existing directory, as
the counterexample above shows.) -/
theorem C9_amended_created_dirs_not_traversed (fuel : Nat) (fs : FS)
    (hwf : fs.wellFormed) :
    ∀ p ∈ (main fuel fs).visited, p ∈ fs.dirs := by
  refine walkAux_visited_mem fs fuel fs [[]] hwf (fun q hq => hq) ?_ ?_ ?_ ?_
  · intro q hq
    rw [List.mem_singleton.mp hq]
    exact hwf.2.1
  · intro q hq
    rw [List.mem_singleton.mp hq]
    exact hwf.2.1
  · exact List.pairwise_singleton _ _
  · intro p hp hp0 q hq
    exact absurd hp hp0

theorem C9_amended_created_dirs_not_traversed_witness :
    fsBar.wellFormed ∧ (["bar"] : Path) ∈ fsBar.dirs :=
  ⟨by decide,
    C9_amended_created_dirs_not_traversed 10 fsBar (by decide) ["bar"] (by decide)⟩

end Script
